import Mathlib

/-!
Verification of the batch upload / retry subsystem of the IPFS client
(`IPFSClient` in `src/storage/ipfs.ts`): the single-item uploader with
timeout/retry logic (`uploadJSON` / `uploadWithRetry`), the retryable-error
classifier (`isRetryableError`), the batch orchestrator (`uploadBatch`) with
windowed concurrency and progress snapshots, and the lazily-created transport
handle (`getClient` / `disconnect`).

The transport (`ipfs-http-client`'s `add`, raced against a timeout timer) is
opaque: one attempt of the race is modelled by an `AttemptOutcome` value, and a
whole run is parameterized by the sequence of attempt outcomes.  JavaScript's
single-threaded cooperative scheduling means that inside one window all the
synchronous start sections run first (in input order) and then the completion
continuations run one at a time in some order; that completion order is the
only free interleaving, and it is modelled by an explicit schedule parameter.
-/

deriving instance DecidableEq for Except

namespace IpfsSdk

/-- Error codes of the `IPFSError` class (`metadata/builder.ts`). -/
inductive ErrKind where
  | UPLOAD_FAILED
  | TIMEOUT
  | INVALID_RESPONSE
  | NETWORK_ERROR
deriving DecidableEq, Repr

/-- Model of a thrown `IPFSError`: its message and its code.  The optional
`cause` field of the class is not modelled (no claim mentions it). -/
structure IPFSErr where
  message : String
  code : ErrKind
deriving DecidableEq, Repr

/-- Result shape of a successful upload (`IPFSUploadResponse`). -/
structure IPFSUploadResponse where
  url : String
  hash : String
  gatewayUrl : String
deriving DecidableEq, Repr

/-- Client configuration (`Required<IPFSUploadOptions>`). -/
structure UploadOptions where
  gateway : String
  timeout : Nat
  retries : Nat
  pin : Bool
deriving DecidableEq, Repr

/-- The `DEFAULT_OPTIONS` constant of `ipfs.ts`. -/
def DEFAULT_OPTIONS : UploadOptions :=
  { gateway := "https://nft.storage", timeout := 30000, retries := 3, pin := true }

/-- Outcome of one attempt of the race
`Promise.race([client.add(buffer, {pin}), createTimeout(timeout)])`:
either the transport resolves with a result carrying a `cid` (rendered as a
string), or it resolves with a value lacking the `cid` field, or the timer
wins the race (an `Error('Upload timeout')` rejection), or the transport
rejects with an `Error` carrying some message. -/
inductive AttemptOutcome where
  | ok (cid : String)
  | noCid
  | timeout
  | err (msg : String)
deriving DecidableEq, Repr

/-- Check whether the character list `pat` is a leading segment of `l`. -/
def startsWithL : List Char → List Char → Bool
  | [], _ => true
  | _ :: _, [] => false
  | a :: as, b :: bs => a == b && startsWithL as bs

/-- Check whether the character list `pat` occurs contiguously inside `l`. -/
def occursL (pat : List Char) : List Char → Bool
  | [] => startsWithL pat []
  | c :: t => startsWithL pat (c :: t) || occursL pat t

/-- Model of JavaScript `s.includes(sub)`: substring containment. -/
def strIncludes (s sub : String) : Bool :=
  occursL sub.toList s.toList

/-- Characters of a string, lowercased (JavaScript `s.toLowerCase()`). -/
def lowerL (s : String) : List Char :=
  s.toList.map Char.toLower

/-- Case-insensitive containment:
JavaScript `s.toLowerCase().includes(sub.toLowerCase())`. -/
def includesCI (s sub : String) : Bool :=
  occursL (lowerL sub) (lowerL s)

/-- The `retryableMessages` array of `isRetryableError`. -/
def retryableMessages : List String :=
  ["network", "timeout", "ECONNREFUSED", "ENOTFOUND", "ETIMEDOUT", "socket hang up"]

/-- The `isRetryableError` classifier of `ipfs.ts`, on the message of a caught
`Error`.  (The source returns `false` for non-`Error` values; every thrown
value in this model carries a message.)  It lowercases both sides and tests
substring containment against the fixed list. -/
def isRetryableError (msg : String) : Bool :=
  retryableMessages.any (fun m => includesCI msg m)

/-- What the `try` block of `uploadWithRetry` does with one attempt outcome:
either a normalized success response is returned, or some `Error` with the
given message reaches the `catch` (the timer's `'Upload timeout'` rejection,
the locally thrown `IPFSError('Invalid response from IPFS')`, or the
transport's own error). -/
inductive TryOutcome where
  | success (resp : IPFSUploadResponse)
  | thrown (msg : String)
deriving DecidableEq, Repr

/-- Success response built from a content identifier, as in `ipfs.ts`:
`url = "ipfs://" + hash`, `gatewayUrl = gateway + "/ipfs/" + hash`. -/
def mkResponse (opts : UploadOptions) (cid : String) : IPFSUploadResponse :=
  { url := "ipfs://" ++ cid, hash := cid, gatewayUrl := opts.gateway ++ "/ipfs/" ++ cid }

/-- Body of the `try` block of `uploadWithRetry` on one attempt outcome. -/
def tryBody (opts : UploadOptions) (a : AttemptOutcome) : TryOutcome :=
  match a with
  | .ok cid => .success (mkResponse opts cid)
  | .noCid => .thrown "Invalid response from IPFS"
  | .timeout => .thrown "Upload timeout"
  | .err msg => .thrown msg

/-- The `uploadWithRetry` method.  `att` gives the outcome of each raced
attempt, `k` is the index of the current attempt, and the last argument is
`retriesLeft`.  The `catch` block first handles the exact message
`'Upload timeout'` (retry if retries remain, else an `IPFSError` of kind
`TIMEOUT` whose message names the configured `options.retries`), then retries
when retries remain and `isRetryableError` accepts the message, and otherwise
wraps the message in an `IPFSError` of kind `UPLOAD_FAILED`. -/
def uploadWithRetry (opts : UploadOptions) (att : Nat → AttemptOutcome) :
    Nat → Nat → Except IPFSErr IPFSUploadResponse
  | k, 0 =>
    match tryBody opts (att k) with
    | .success resp => .ok resp
    | .thrown msg =>
      if msg = "Upload timeout" then
        .error ⟨"Upload timed out after " ++ toString opts.retries ++ " retries", .TIMEOUT⟩
      else
        .error ⟨"IPFS upload failed: " ++ msg, .UPLOAD_FAILED⟩
  | k, r + 1 =>
    match tryBody opts (att k) with
    | .success resp => .ok resp
    | .thrown msg =>
      if msg = "Upload timeout" then
        uploadWithRetry opts att (k + 1) r
      else if isRetryableError msg then
        uploadWithRetry opts att (k + 1) r
      else
        .error ⟨"IPFS upload failed: " ++ msg, .UPLOAD_FAILED⟩

/-- Number of transport attempts (calls of the raced `client.add`) performed
by `uploadWithRetry` starting at attempt `k` with the given `retriesLeft`;
mirrors the recursion of `uploadWithRetry` exactly. -/
def attemptsUsed (opts : UploadOptions) (att : Nat → AttemptOutcome) :
    Nat → Nat → Nat
  | _, 0 => 1
  | k, r + 1 =>
    match tryBody opts (att k) with
    | .success _ => 1
    | .thrown msg =>
      if msg = "Upload timeout" then
        1 + attemptsUsed opts att (k + 1) r
      else if isRetryableError msg then
        1 + attemptsUsed opts att (k + 1) r
      else
        1

/-- The `uploadJSON` method: `uploadWithRetry(metadata, options.retries)`. -/
def uploadJSON (opts : UploadOptions) (att : Nat → AttemptOutcome) :
    Except IPFSErr IPFSUploadResponse :=
  uploadWithRetry opts att 0 opts.retries

/-- Transport attempts performed by one `uploadJSON` call. -/
def attemptsJSON (opts : UploadOptions) (att : Nat → AttemptOutcome) : Nat :=
  attemptsUsed opts att 0 opts.retries

/-- An attempt outcome that the `catch` block would retry when retries remain:
a lost race against the timer, or an error message equal to
`'Upload timeout'`, or a message the classifier accepts. -/
def attemptRetryable : AttemptOutcome → Bool
  | .timeout => true
  | .err msg => msg == "Upload timeout" || isRetryableError msg
  | _ => false

/-- Example options for the retry witnesses: two retries configured. -/
def optsEx2 : UploadOptions :=
  { gateway := "g", timeout := 1000, retries := 2, pin := true }

/-- Example attempt sequence: the first two attempts lose the timeout race,
the third succeeds. -/
def attEx2 : Nat → AttemptOutcome :=
  fun k => if k < 2 then .timeout else .ok "cid"

/-- Example attempt sequence: the transport always answers without a `cid`. -/
def attNoCid : Nat → AttemptOutcome :=
  fun _ => .noCid

/-- Kind of the error raised by a single-item upload, when it fails. -/
def raisedKind : Except IPFSErr IPFSUploadResponse → Option ErrKind
  | .ok _ => none
  | .error e => some e.code

/-- The spec's fixed substring list for retryability, written in the spec's
own lowercase form. -/
def specRetryableSubstrings : List String :=
  ["network", "timeout", "econnrefused", "enotfound", "etimedout", "socket hang up"]

/-- One entry of the `results` array of `uploadBatch`: either
`{index, success: true, response}` or `{index, success: false, error}`. -/
inductive BatchUploadResult where
  | ok (index : Nat) (response : IPFSUploadResponse)
  | fail (index : Nat) (error : String)
deriving DecidableEq, Repr

/-- The `index` field of a batch result. -/
def BatchUploadResult.index : BatchUploadResult → Nat
  | .ok i _ => i
  | .fail i _ => i

/-- The `success` field of a batch result. -/
def BatchUploadResult.success : BatchUploadResult → Bool
  | .ok _ _ => true
  | .fail _ _ => false

/-- A `BatchUploadProgress` snapshot as passed to `onProgress`.  `inProgress`
is modelled as an integer so that "never negative" is a real statement. -/
structure ProgressSnapshot where
  inProgress : Int
  total : Nat
  successful : Nat
  failed : Nat
  errors : List String
deriving DecidableEq, Repr

/-- The mutable local state of one `uploadBatch` invocation (`results`,
`errors`, `successful`, `failed`, `inProgress`), together with the list of
snapshots delivered to the `onProgress` callback so far (the observable
callback history). -/
structure BatchState where
  results : List BatchUploadResult
  errors : List String
  successful : Nat
  failed : Nat
  inProgress : Int
  snapshots : List ProgressSnapshot
deriving DecidableEq, Repr

/-- The `updateProgress` helper: deliver a full snapshot of the counters and a
copy of the errors list to the callback. -/
def updateProgress (total : Nat) (s : BatchState) : BatchState :=
  { s with
    snapshots := s.snapshots ++
      [{ inProgress := s.inProgress
         total := total
         successful := s.successful
         failed := s.failed
         errors := s.errors }] }

/-- Synchronous prefix of one item's closure: `inProgress++` then
`updateProgress()`. -/
def startItem (total : Nat) (s : BatchState) : BatchState :=
  updateProgress total { s with inProgress := s.inProgress + 1 }

/-- Continuation of one item's closure after its `uploadJSON` resolves:
on success `inProgress--; successful++;` push the success result; on error
`inProgress--; failed++;` push `"Index {i}: {message}"` onto `errors` and push
the failure result; then `updateProgress()`. -/
def completeItem (upload : Nat → Except IPFSErr IPFSUploadResponse) (total : Nat)
    (i : Nat) (s : BatchState) : BatchState :=
  match upload i with
  | .ok resp =>
    updateProgress total
      { s with
        inProgress := s.inProgress - 1
        successful := s.successful + 1
        results := s.results ++ [.ok i resp] }
  | .error e =>
    updateProgress total
      { s with
        inProgress := s.inProgress - 1
        failed := s.failed + 1
        errors := s.errors ++ ["Index " ++ toString i ++ ": " ++ e.message]
        results := s.results ++ [.fail i e.message] }

/-- Start phase of a window: `batch.map` runs every closure's synchronous
prefix, in input order. -/
def startsRun (total : Nat) (w : List Nat) (s : BatchState) : BatchState :=
  w.foldl (fun acc _ => startItem total acc) s

/-- Completion phase of a window: the completion continuations run one at a
time (single-threaded event loop) in the order the uploads settle, given by
`order`. -/
def completionsRun (upload : Nat → Except IPFSErr IPFSUploadResponse) (total : Nat)
    (order : List Nat) (s : BatchState) : BatchState :=
  order.foldl (fun acc i => completeItem upload total i acc) s

/-- One iteration of the window loop: start every item of the window, then
let all of them complete (in completion order `order`); only then does
`await Promise.all(batchPromises)` resolve. -/
def processWindow (upload : Nat → Except IPFSErr IPFSUploadResponse) (total : Nat)
    (w order : List Nat) (s : BatchState) : BatchState :=
  completionsRun upload total order (startsRun total w s)

/-- The window loop of `uploadBatch`: windows are processed strictly one after
another; `sched k` is the completion order of the `k`-th window. -/
def runWindows (upload : Nat → Except IPFSErr IPFSUploadResponse) (total : Nat)
    (sched : Nat → List Nat) : List (List Nat) → Nat → BatchState → BatchState
  | [], _, s => s
  | w :: rest, k, s =>
    runWindows upload total sched rest (k + 1) (processWindow upload total w (sched k) s)

/-- Local state at the start of an `uploadBatch` call. -/
def initState : BatchState :=
  { results := []
    errors := []
    successful := 0
    failed := 0
    inProgress := 0
    snapshots := [] }

/-- Fueled unrolling of `for (let i = 0; i < len; i += concurrency)` with
`slice(i, i + concurrency)`: splits the index list into consecutive windows of
at most `C` items.  One unit of fuel per loop iteration suffices whenever
`C ≥ 1`. -/
def windowsAux : Nat → Nat → List Nat → List (List Nat)
  | 0, _, _ => []
  | _ + 1, _, [] => []
  | fuel + 1, C, x :: xs => ((x :: xs).take C) :: windowsAux fuel C ((x :: xs).drop C)

/-- The windows of item indices `0..n-1` for concurrency `C`. -/
def windowsOf (C n : Nat) : List (List Nat) :=
  windowsAux n C (List.range n)

/-- Comparator of the final `results.sort((a, b) => a.index - b.index)`. -/
def resultLE (a b : BatchUploadResult) : Prop :=
  a.index ≤ b.index

instance : DecidableRel resultLE := fun a b => Nat.decLe a.index b.index

instance : IsTotal BatchUploadResult resultLE := ⟨fun a b => Nat.le_total a.index b.index⟩

instance : IsTrans BatchUploadResult resultLE := ⟨fun _ _ _ => Nat.le_trans⟩

/-- The final ascending-by-index sort of the results array. -/
def sortResults (l : List BatchUploadResult) : List BatchUploadResult :=
  List.insertionSort resultLE l

/-- The `BatchUploadResponse` returned by `uploadBatch`. -/
structure BatchUploadResponse where
  results : List BatchUploadResult
  success : Bool
  progress : ProgressSnapshot
deriving DecidableEq, Repr

/-- Final local state of an `uploadBatch` call on `n` items with concurrency
`C`: `upload i` is the resolved outcome of `this.uploadJSON` for the item at
index `i`, and `sched k` the completion order of window `k`. -/
def uploadBatchState (upload : Nat → Except IPFSErr IPFSUploadResponse)
    (n C : Nat) (sched : Nat → List Nat) : BatchState :=
  runWindows upload n sched (windowsOf C n) 0 initState

/-- The `uploadBatch` method: run the window loop, sort the results by index,
and return `{results, success: failed === 0, progress}` with a final snapshot
whose `inProgress` is the literal `0`. -/
def uploadBatch (upload : Nat → Except IPFSErr IPFSUploadResponse)
    (n C : Nat) (sched : Nat → List Nat) : BatchUploadResponse :=
  let s := uploadBatchState upload n C sched
  { results := sortResults s.results
    success := s.failed == 0
    progress := { inProgress := 0
                  total := n
                  successful := s.successful
                  failed := s.failed
                  errors := s.errors } }

/-- The sequence of snapshots delivered to `onProgress` during one
`uploadBatch` call. -/
def batchSnapshots (upload : Nat → Except IPFSErr IPFSUploadResponse)
    (n C : Nat) (sched : Nat → List Nat) : List ProgressSnapshot :=
  (uploadBatchState upload n C sched).snapshots

/-- The single outcome recorded for item `i`. -/
def mkOutcome (upload : Nat → Except IPFSErr IPFSUploadResponse) (i : Nat) :
    BatchUploadResult :=
  match upload i with
  | .ok resp => .ok i resp
  | .error e => .fail i e.message

/-- Whether a resolved single-item upload succeeded. -/
def isOkB : Except IPFSErr IPFSUploadResponse → Bool
  | .ok _ => true
  | .error _ => false

/-- The errors-list entry recorded when item `i` fails. -/
def errEntry (upload : Nat → Except IPFSErr IPFSUploadResponse) (i : Nat) : String :=
  match upload i with
  | .ok _ => ""
  | .error e => "Index " ++ toString i ++ ": " ++ e.message

/-- Number of indices of `l` whose upload succeeds. -/
def countOk (upload : Nat → Except IPFSErr IPFSUploadResponse) (l : List Nat) : Nat :=
  (l.filter fun i => isOkB (upload i)).length

/-- Number of indices of `l` whose upload fails. -/
def countFail (upload : Nat → Except IPFSErr IPFSUploadResponse) (l : List Nat) : Nat :=
  (l.filter fun i => !isOkB (upload i)).length

/-- Invariants of one delivered snapshot: correct total, conservation bound,
non-negative in-flight count bounded by the concurrency limit, and one errors
entry per failure. -/
def Qsnap (total C : Nat) (t : ProgressSnapshot) : Prop :=
  t.total = total ∧ t.successful + t.failed ≤ total ∧ 0 ≤ t.inProgress ∧
  t.inProgress ≤ (C : Int) ∧ t.errors.length = t.failed

/-- Value of the loop variable `i` of `for (let i = 0; i < len; i += C)` after
`k` iterations. -/
def loopCounter (C : Nat) : Nat → Nat
  | 0 => 0
  | k + 1 => loopCounter C k + C

/-- Operations on one client instance that touch the lazily-created transport
handle: any upload (which calls `getClient()`) and `disconnect()`. -/
inductive ClientOp where
  | upload
  | disconnect
deriving DecidableEq, Repr

/-- The `client` field of an `IPFSClient` instance plus a count of how many
times `create(...)` has run; a handle is identified by its creation rank. -/
structure ClientState where
  client : Option Nat
  created : Nat
deriving DecidableEq, Repr

/-- The `getClient` method: lazily create the handle when `client` is null,
otherwise reuse it. -/
def getClient (s : ClientState) : Nat × ClientState :=
  match s.client with
  | some h => (h, s)
  | none => (s.created, { client := some s.created, created := s.created + 1 })

/-- Effect of one operation on the client state: uploads go through
`getClient()`; `disconnect()` nulls the handle. -/
def applyOp (s : ClientState) : ClientOp → ClientState
  | .upload => (getClient s).2
  | .disconnect => { s with client := none }

/-- A fresh client instance run through a sequence of operations. -/
def runOps (ops : List ClientOp) : ClientState :=
  ops.foldl applyOp { client := none, created := 0 }

/-- Example per-item outcomes for the batch witnesses: item 1 fails, all other
items succeed. -/
def uploadEx : Nat → Except IPFSErr IPFSUploadResponse :=
  fun i =>
    if i == 1 then .error ⟨"Network request failed", .UPLOAD_FAILED⟩
    else .ok ⟨"ipfs://h" ++ toString i, "h" ++ toString i, "g/ipfs/h" ++ toString i⟩

/-- Example completion interleaving: every window completes in reverse start
order. -/
def schedRev (C n : Nat) : Nat → List Nat :=
  fun k => ((windowsOf C n).getD k []).reverse

/-- Example attempt sequence: the transport rejects with a non-retryable
message on every attempt. -/
def attErr : Nat → AttemptOutcome :=
  fun _ => .err "Invalid metadata schema"

end IpfsSdk

namespace IpfsSdk

theorem strToList_append (a b : String) : (a ++ b).toList = a.toList ++ b.toList :=
  String.data_append a b

theorem startsWithL_self_append (p rest : List Char) :
    startsWithL p (p ++ rest) = true := by
  induction p with
  | nil => rfl
  | cons a as ih => simp [startsWithL, ih]

theorem occursL_of_startsWithL {p l : List Char} (h : startsWithL p l = true) :
    occursL p l = true := by
  cases l with
  | nil => simpa [occursL] using h
  | cons c t => simp [occursL, h]

theorem occursL_append (x p y : List Char) : occursL p (x ++ (p ++ y)) = true := by
  induction x with
  | nil => exact occursL_of_startsWithL (startsWithL_self_append p y)
  | cons c t ih => simp [occursL, ih]

theorem strIncludes_middle (a m b : String) : strIncludes (a ++ m ++ b) m = true := by
  have h : (a ++ m ++ b).toList = a.toList ++ (m.toList ++ b.toList) := by
    rw [strToList_append, strToList_append, List.append_assoc]
  rw [strIncludes, h]
  exact occursL_append _ _ _

/-- Base success case: when attempt `k` yields a `cid`, any remaining-retries
value produces the normalized response at once. -/
theorem uploadWithRetry_ok_now (opts : UploadOptions) (att : Nat → AttemptOutcome)
    (k r : Nat) (cid : String) (hA : att k = .ok cid) :
    uploadWithRetry opts att k r = .ok (mkResponse opts cid) ∧
    attemptsUsed opts att k r = 1 := by
  cases r <;> simp [uploadWithRetry, attemptsUsed, tryBody, hA]

/-- After `M ≤ retriesLeft` retryable failures, a successful attempt makes the
whole call succeed. -/
theorem uploadWithRetry_ok_after (opts : UploadOptions) (att : Nat → AttemptOutcome) :
    ∀ (M k r : Nat) (cid : String), M ≤ r →
    (∀ j, j < M → attemptRetryable (att (k + j)) = true) →
    att (k + M) = .ok cid →
    uploadWithRetry opts att k r = .ok (mkResponse opts cid) := by
  intro M
  induction M with
  | zero =>
    intro k r cid _ _ hok
    exact (uploadWithRetry_ok_now opts att k r cid (by simpa using hok)).1
  | succ M ih =>
    intro k r cid hMr hfail hok
    obtain ⟨r', rfl⟩ : ∃ r', r = r' + 1 := ⟨r - 1, by omega⟩
    have h0 : attemptRetryable (att k) = true := by
      simpa using hfail 0 (Nat.succ_pos M)
    have hfail' : ∀ j, j < M → attemptRetryable (att (k + 1 + j)) = true := by
      intro j hj
      have := hfail (j + 1) (by omega)
      simpa [show k + (j + 1) = k + 1 + j by omega] using this
    have hok' : att (k + 1 + M) = .ok cid := by
      simpa [show k + (M + 1) = k + 1 + M by omega] using hok
    have hrec := ih (k + 1) r' cid (by omega) hfail' hok'
    cases hA : att k with
    | ok c => rw [hA] at h0; simp [attemptRetryable] at h0
    | noCid => rw [hA] at h0; simp [attemptRetryable] at h0
    | timeout => simpa [uploadWithRetry, tryBody, hA] using hrec
    | err msg =>
      rw [hA] at h0
      simp [attemptRetryable] at h0
      by_cases ht : msg = "Upload timeout"
      · simpa [uploadWithRetry, tryBody, hA, ht] using hrec
      · have hr : isRetryableError msg = true := by
          rcases h0 with h | h
          · exact absurd h ht
          · exact h
        simpa [uploadWithRetry, tryBody, hA, ht, hr] using hrec

/-- The number of transport attempts never exceeds `retriesLeft + 1`. -/
theorem attemptsUsed_le (opts : UploadOptions) (att : Nat → AttemptOutcome) :
    ∀ r k, attemptsUsed opts att k r ≤ r + 1 := by
  intro r
  induction r with
  | zero => intro k; simp [attemptsUsed]
  | succ r ih =>
    intro k
    have hk := ih (k + 1)
    cases h : tryBody opts (att k) with
    | success resp => simp [attemptsUsed, h]
    | thrown msg =>
      by_cases ht : msg = "Upload timeout"
      · simp only [attemptsUsed, h, if_pos ht]
        omega
      · by_cases hr : isRetryableError msg = true
        · simp only [attemptsUsed, h, if_neg ht, if_pos hr]
          omega
        · simp only [attemptsUsed, h, if_neg ht,
            if_neg (by simpa using hr : ¬ isRetryableError msg = true)]
          omega

/-- When each of the `retriesLeft + 1` attempts fails retryably, the call
fails with a single error after using every attempt. -/
theorem uploadWithRetry_allfail (opts : UploadOptions) (att : Nat → AttemptOutcome) :
    ∀ r k, (∀ j, j ≤ r → attemptRetryable (att (k + j)) = true) →
    (∃ e, uploadWithRetry opts att k r = .error e) ∧
    attemptsUsed opts att k r = r + 1 := by
  intro r
  induction r with
  | zero =>
    intro k hfail
    have h0 : attemptRetryable (att k) = true := by simpa using hfail 0 (Nat.le_refl 0)
    cases hA : att k with
    | ok c => rw [hA] at h0; simp [attemptRetryable] at h0
    | noCid => rw [hA] at h0; simp [attemptRetryable] at h0
    | timeout =>
      exact ⟨⟨⟨"Upload timed out after " ++ toString opts.retries ++ " retries", .TIMEOUT⟩,
        by simp [uploadWithRetry, tryBody, hA]⟩, by simp [attemptsUsed]⟩
    | err msg =>
      by_cases ht : msg = "Upload timeout"
      · exact ⟨⟨⟨"Upload timed out after " ++ toString opts.retries ++ " retries", .TIMEOUT⟩,
          by simp [uploadWithRetry, tryBody, hA, ht]⟩, by simp [attemptsUsed]⟩
      · exact ⟨⟨⟨"IPFS upload failed: " ++ msg, .UPLOAD_FAILED⟩,
          by simp [uploadWithRetry, tryBody, hA, ht]⟩, by simp [attemptsUsed]⟩
  | succ r ih =>
    intro k hfail
    have h0 : attemptRetryable (att k) = true := by simpa using hfail 0 (Nat.zero_le _)
    have hfail' : ∀ j, j ≤ r → attemptRetryable (att (k + 1 + j)) = true := by
      intro j hj
      have := hfail (j + 1) (by omega)
      simpa [show k + (j + 1) = k + 1 + j by omega] using this
    obtain ⟨⟨e, he⟩, hcnt⟩ := ih (k + 1) hfail'
    cases hA : att k with
    | ok c => rw [hA] at h0; simp [attemptRetryable] at h0
    | noCid => rw [hA] at h0; simp [attemptRetryable] at h0
    | timeout =>
      refine ⟨⟨e, ?_⟩, ?_⟩
      · simpa [uploadWithRetry, tryBody, hA] using he
      · simp [attemptsUsed, tryBody, hA, hcnt]
        omega
    | err msg =>
      rw [hA] at h0
      simp [attemptRetryable] at h0
      by_cases ht : msg = "Upload timeout"
      · refine ⟨⟨e, ?_⟩, ?_⟩
        · simpa [uploadWithRetry, tryBody, hA, ht] using he
        · simp [attemptsUsed, tryBody, hA, ht, hcnt]
          omega
      · have hr : isRetryableError msg = true := by
          rcases h0 with h | h
          · exact absurd h ht
          · exact h
        refine ⟨⟨e, ?_⟩, ?_⟩
        · simpa [uploadWithRetry, tryBody, hA, ht, hr] using he
        · simp [attemptsUsed, tryBody, hA, ht, hr, hcnt]
          omega

/-- When every attempt loses the race against the timer, the call fails with
kind `TIMEOUT` and the message naming the configured retry count. -/
theorem uploadWithRetry_alltimeout (opts : UploadOptions) (att : Nat → AttemptOutcome) :
    ∀ r k, (∀ j, j ≤ r → att (k + j) = .timeout) →
    uploadWithRetry opts att k r =
      .error ⟨"Upload timed out after " ++ toString opts.retries ++ " retries", .TIMEOUT⟩ := by
  intro r
  induction r with
  | zero =>
    intro k hall
    have h0 : att k = .timeout := by simpa using hall 0 (Nat.le_refl 0)
    simp [uploadWithRetry, tryBody, h0]
  | succ r ih =>
    intro k hall
    have h0 : att k = .timeout := by simpa using hall 0 (Nat.zero_le _)
    have hall' : ∀ j, j ≤ r → att (k + 1 + j) = .timeout := by
      intro j hj
      have := hall (j + 1) (by omega)
      simpa [show k + (j + 1) = k + 1 + j by omega] using this
    simpa [uploadWithRetry, tryBody, h0] using ih (k + 1) hall'

/-- A transport error whose message is neither the timer's message nor
retryable fails at once with kind `UPLOAD_FAILED`, spending one attempt. -/
theorem uploadWithRetry_fatal (opts : UploadOptions) (att : Nat → AttemptOutcome)
    (k r : Nat) (msg : String) (hA : att k = .err msg)
    (hne : msg ≠ "Upload timeout") (hnr : isRetryableError msg = false) :
    uploadWithRetry opts att k r = .error ⟨"IPFS upload failed: " ++ msg, .UPLOAD_FAILED⟩ ∧
    attemptsUsed opts att k r = 1 := by
  cases r <;> simp [uploadWithRetry, attemptsUsed, tryBody, hA, hne, hnr]

/-- A transport result lacking the `cid` field: the locally thrown
`INVALID_RESPONSE` error is caught by the same `catch`, is not the timer
message and not retryable, and is re-wrapped as `UPLOAD_FAILED`; exactly one
attempt is spent, whatever `retriesLeft` is. -/
theorem uploadWithRetry_noCid (opts : UploadOptions) (att : Nat → AttemptOutcome)
    (k r : Nat) (hA : att k = .noCid) :
    uploadWithRetry opts att k r =
      .error ⟨"IPFS upload failed: Invalid response from IPFS", .UPLOAD_FAILED⟩ ∧
    attemptsUsed opts att k r = 1 := by
  have h1 : ("Invalid response from IPFS" : String) ≠ "Upload timeout" := by decide
  have h2 : isRetryableError "Invalid response from IPFS" = false := by decide
  cases r <;> simp [uploadWithRetry, attemptsUsed, tryBody, hA, h1, h2]

/-- C2: for every single item, the transport is raced at most
`retries + 1` times; if the first `M ≤ retries` attempts fail with timeouts or
retryable errors and attempt `M + 1` succeeds, the item succeeds with the
normalized response; an item failing retryably on all `retries + 1` attempts
yields exactly one error after exactly `retries + 1` attempts; and when every
attempt times out, the single failure has kind `TIMEOUT` with a message
including the configured retry count. -/
theorem c2_retry_semantics (opts : UploadOptions) (att : Nat → AttemptOutcome) :
    attemptsJSON opts att ≤ opts.retries + 1 ∧
    (∀ M cid, M ≤ opts.retries →
      (∀ j, j < M → attemptRetryable (att j) = true) →
      att M = .ok cid →
      uploadJSON opts att = .ok (mkResponse opts cid)) ∧
    ((∀ j, j ≤ opts.retries → attemptRetryable (att j) = true) →
      (∃ e, uploadJSON opts att = .error e) ∧
      attemptsJSON opts att = opts.retries + 1) ∧
    ((∀ j, j ≤ opts.retries → att j = .timeout) →
      uploadJSON opts att =
        .error ⟨"Upload timed out after " ++ toString opts.retries ++ " retries", .TIMEOUT⟩ ∧
      strIncludes ("Upload timed out after " ++ toString opts.retries ++ " retries")
        (toString opts.retries) = true) := by
  refine ⟨attemptsUsed_le opts att opts.retries 0, ?_, ?_, ?_⟩
  · intro M cid hM hfail hok
    exact uploadWithRetry_ok_after opts att M 0 opts.retries cid hM
      (fun j hj => by simpa using hfail j hj) (by simpa using hok)
  · intro h
    exact uploadWithRetry_allfail opts att opts.retries 0
      (fun j hj => by simpa using h j hj)
  · intro h
    exact ⟨uploadWithRetry_alltimeout opts att opts.retries 0
      (fun j hj => by simpa using h j hj),
      strIncludes_middle "Upload timed out after " (toString opts.retries) " retries"⟩

/-- Witness for C2 at concrete inputs: two timeouts then a success, with two
configured retries, succeeds. -/
theorem c2_retry_semantics_witness :
    (∀ j, j < 2 → attemptRetryable (attEx2 j) = true) ∧
    (2 : Nat) ≤ optsEx2.retries ∧
    attEx2 2 = .ok "cid" ∧
    uploadJSON optsEx2 attEx2 = .ok (mkResponse optsEx2 "cid") :=
  ⟨by decide, by decide, by decide,
    (c2_retry_semantics optsEx2 attEx2).2.1 2 "cid" (by decide) (by decide) (by decide)⟩

/-- C3 counterexample: when the transport answers without a `cid`, no retry is
spent, but the error that reaches the caller has kind `UPLOAD_FAILED` (the
locally thrown `INVALID_RESPONSE` error is caught by the method's own `catch`
and re-wrapped), not `INVALID_RESPONSE` as the claim states. -/
theorem c3_invalid_response_counterexample :
    raisedKind (uploadJSON DEFAULT_OPTIONS attNoCid) ≠ some ErrKind.INVALID_RESPONSE ∧
    raisedKind (uploadJSON DEFAULT_OPTIONS attNoCid) = some ErrKind.UPLOAD_FAILED ∧
    uploadJSON DEFAULT_OPTIONS attNoCid =
      .error ⟨"IPFS upload failed: Invalid response from IPFS", .UPLOAD_FAILED⟩ ∧
    attemptsJSON DEFAULT_OPTIONS attNoCid = 1 := by
  refine ⟨by decide, by decide, by decide, by decide⟩

/-- C3 amended: when the transport returns a result lacking the `cid` field,
the single-item upload fails immediately — one attempt, no retry regardless of
remaining retries — and the error raised to the caller has kind
`UPLOAD_FAILED` with message `"IPFS upload failed: Invalid response from
IPFS"`, wrapping the internal `INVALID_RESPONSE` error. -/
theorem c3_invalid_response_amended (opts : UploadOptions) (att : Nat → AttemptOutcome)
    (h : att 0 = .noCid) :
    uploadJSON opts att =
      .error ⟨"IPFS upload failed: Invalid response from IPFS", .UPLOAD_FAILED⟩ ∧
    attemptsJSON opts att = 1 :=
  uploadWithRetry_noCid opts att 0 opts.retries h

/-- Witness for the amended C3 at concrete inputs. -/
theorem c3_invalid_response_amended_witness :
    attNoCid 0 = .noCid ∧
    uploadJSON DEFAULT_OPTIONS attNoCid =
      .error ⟨"IPFS upload failed: Invalid response from IPFS", .UPLOAD_FAILED⟩ ∧
    attemptsJSON DEFAULT_OPTIONS attNoCid = 1 :=
  ⟨by decide,
    (c3_invalid_response_amended DEFAULT_OPTIONS attNoCid (by decide)).1,
    (c3_invalid_response_amended DEFAULT_OPTIONS attNoCid (by decide)).2⟩

/-- C8: the retryable-error classifier is pure and returns `true` exactly when
the message contains, case-insensitively, one of the spec's fixed substrings;
`"Network request failed"` is retryable and `"Invalid metadata schema"` is
not. -/
theorem c8_retryable_classification :
    (∀ msg : String, isRetryableError msg = true ↔
      ∃ sub ∈ specRetryableSubstrings, occursL sub.toList (lowerL msg) = true) ∧
    isRetryableError "Network request failed" = true ∧
    isRetryableError "Invalid metadata schema" = false := by
  have hmap : retryableMessages.map lowerL = specRetryableSubstrings.map String.toList := by
    decide
  refine ⟨fun msg => ?_, by decide, by decide⟩
  simp only [isRetryableError, includesCI, List.any_eq_true]
  constructor
  · rintro ⟨sub, hsub, hocc⟩
    have hm : lowerL sub ∈ specRetryableSubstrings.map String.toList := by
      rw [← hmap]
      exact List.mem_map_of_mem _ hsub
    obtain ⟨sub', hsub', heq⟩ := List.mem_map.mp hm
    exact ⟨sub', hsub', by rw [heq]; exact hocc⟩
  · rintro ⟨sub', hsub', hocc⟩
    have hm : sub'.toList ∈ retryableMessages.map lowerL := by
      rw [hmap]
      exact List.mem_map_of_mem _ hsub'
    obtain ⟨sub, hsub, heq⟩ := List.mem_map.mp hm
    exact ⟨sub, hsub, by rw [heq]; exact hocc⟩

/-- Witness for C8 at a concrete input. -/
theorem c8_retryable_classification_witness :
    isRetryableError "Network request failed" = true :=
  c8_retryable_classification.2.1

theorem mkOutcome_index (upload : Nat → Except IPFSErr IPFSUploadResponse) (i : Nat) :
    (mkOutcome upload i).index = i := by
  cases hU : upload i <;> simp [mkOutcome, hU, BatchUploadResult.index]

theorem countOk_add_countFail (upload : Nat → Except IPFSErr IPFSUploadResponse) :
    ∀ l : List Nat, countOk upload l + countFail upload l = l.length := by
  intro l
  induction l with
  | nil => simp [countOk, countFail]
  | cons i tl ih =>
    simp only [countOk, countFail, List.filter_cons, List.length_cons] at ih ⊢
    cases h : isOkB (upload i) <;> simp [h] <;> omega

theorem countOk_append (upload : Nat → Except IPFSErr IPFSUploadResponse)
    (a b : List Nat) : countOk upload (a ++ b) = countOk upload a + countOk upload b := by
  simp [countOk, List.filter_append]

theorem countFail_append (upload : Nat → Except IPFSErr IPFSUploadResponse)
    (a b : List Nat) : countFail upload (a ++ b) = countFail upload a + countFail upload b := by
  simp [countFail, List.filter_append]

theorem startItem_results (total : Nat) (s : BatchState) :
    (startItem total s).results = s.results := rfl

theorem startItem_errors (total : Nat) (s : BatchState) :
    (startItem total s).errors = s.errors := rfl

theorem startItem_successful (total : Nat) (s : BatchState) :
    (startItem total s).successful = s.successful := rfl

theorem startItem_failed (total : Nat) (s : BatchState) :
    (startItem total s).failed = s.failed := rfl

theorem startItem_inProgress (total : Nat) (s : BatchState) :
    (startItem total s).inProgress = s.inProgress + 1 := rfl

theorem startItem_snapshots (total : Nat) (s : BatchState) :
    (startItem total s).snapshots = s.snapshots ++
      [{ inProgress := s.inProgress + 1
         total := total
         successful := s.successful
         failed := s.failed
         errors := s.errors }] := rfl

/-- Effect of the start phase of a window on the local state: it only grows
`inProgress` (by the window length) and delivers one snapshot per started
item, each showing the unchanged counters and an in-flight count strictly
between the old value and the old value plus the window length. -/
theorem startsRun_spec (total : Nat) :
    ∀ (w : List Nat) (s : BatchState),
    (startsRun total w s).results = s.results ∧
    (startsRun total w s).errors = s.errors ∧
    (startsRun total w s).successful = s.successful ∧
    (startsRun total w s).failed = s.failed ∧
    (startsRun total w s).inProgress = s.inProgress + w.length ∧
    ∃ snew, (startsRun total w s).snapshots = s.snapshots ++ snew ∧
      ∀ t ∈ snew, t.total = total ∧ t.successful = s.successful ∧
        t.failed = s.failed ∧ t.errors = s.errors ∧
        s.inProgress < t.inProgress ∧ t.inProgress ≤ s.inProgress + w.length := by
  intro w
  induction w with
  | nil =>
    intro s
    refine ⟨rfl, rfl, rfl, rfl, by simp [startsRun], ⟨[], by simp [startsRun], by simp⟩⟩
  | cons a tl ih =>
    intro s
    have hstep : startsRun total (a :: tl) s = startsRun total tl (startItem total s) := rfl
    obtain ⟨h1, h2, h3, h4, h5, snew, h6, h7⟩ := ih (startItem total s)
    rw [hstep]
    refine ⟨by rw [h1, startItem_results], by rw [h2, startItem_errors],
      by rw [h3, startItem_successful], by rw [h4, startItem_failed], ?_, ?_⟩
    · rw [h5, startItem_inProgress]
      simp [List.length_cons]
      omega
    · refine ⟨{ inProgress := s.inProgress + 1
                total := total
                successful := s.successful
                failed := s.failed
                errors := s.errors } :: snew, ?_, ?_⟩
      · rw [h6, startItem_snapshots]
        simp
      · intro t ht
        rcases List.mem_cons.mp ht with h | h
        · subst h
          refine ⟨rfl, rfl, rfl, rfl, ?_, ?_⟩
          · show s.inProgress < s.inProgress + 1
            omega
          · show s.inProgress + 1 ≤ s.inProgress + ((a :: tl).length : Int)
            simp only [List.length_cons]
            omega
        · obtain ⟨q1, q2, q3, q4, q5, q6⟩ := h7 t h
          rw [startItem_successful] at q2
          rw [startItem_failed] at q3
          rw [startItem_errors] at q4
          rw [startItem_inProgress] at q5 q6
          refine ⟨q1, q2, q3, q4, by omega, ?_⟩
          simp only [List.length_cons]
          omega

theorem completeItem_ok_fields (upload : Nat → Except IPFSErr IPFSUploadResponse)
    (total i : Nat) (s : BatchState) (resp : IPFSUploadResponse)
    (hU : upload i = .ok resp) :
    (completeItem upload total i s).results = s.results ++ [.ok i resp] ∧
    (completeItem upload total i s).errors = s.errors ∧
    (completeItem upload total i s).successful = s.successful + 1 ∧
    (completeItem upload total i s).failed = s.failed ∧
    (completeItem upload total i s).inProgress = s.inProgress - 1 ∧
    (completeItem upload total i s).snapshots = s.snapshots ++
      [{ inProgress := s.inProgress - 1
         total := total
         successful := s.successful + 1
         failed := s.failed
         errors := s.errors }] := by
  refine ⟨?_, ?_, ?_, ?_, ?_, ?_⟩ <;> simp [completeItem, hU, updateProgress]

theorem completeItem_error_fields (upload : Nat → Except IPFSErr IPFSUploadResponse)
    (total i : Nat) (s : BatchState) (e : IPFSErr)
    (hU : upload i = .error e) :
    (completeItem upload total i s).results = s.results ++ [.fail i e.message] ∧
    (completeItem upload total i s).errors =
      s.errors ++ ["Index " ++ toString i ++ ": " ++ e.message] ∧
    (completeItem upload total i s).successful = s.successful ∧
    (completeItem upload total i s).failed = s.failed + 1 ∧
    (completeItem upload total i s).inProgress = s.inProgress - 1 ∧
    (completeItem upload total i s).snapshots = s.snapshots ++
      [{ inProgress := s.inProgress - 1
         total := total
         successful := s.successful
         failed := s.failed + 1
         errors := s.errors ++ ["Index " ++ toString i ++ ": " ++ e.message] }] := by
  refine ⟨?_, ?_, ?_, ?_, ?_, ?_⟩ <;> simp [completeItem, hU, updateProgress]

/-- The completion phase decrements `inProgress` once per completed item,
whatever the item's outcome. -/
theorem completionsRun_inProgress (upload : Nat → Except IPFSErr IPFSUploadResponse)
    (total : Nat) : ∀ (l : List Nat) (s : BatchState),
    (completionsRun upload total l s).inProgress = s.inProgress - l.length := by
  intro l
  induction l with
  | nil => intro s; simp [completionsRun]
  | cons i tl ih =>
    intro s
    have hstep : completionsRun upload total (i :: tl) s =
        completionsRun upload total tl (completeItem upload total i s) := rfl
    rw [hstep, ih]
    have : (completeItem upload total i s).inProgress = s.inProgress - 1 := by
      cases hU : upload i <;> simp [completeItem, hU, updateProgress]
    rw [this]
    simp
    omega

theorem counts_cons_ok (upload : Nat → Except IPFSErr IPFSUploadResponse)
    (i : Nat) (tl : List Nat) (resp : IPFSUploadResponse) (hU : upload i = .ok resp) :
    countOk upload (i :: tl) = countOk upload tl + 1 ∧
    countFail upload (i :: tl) = countFail upload tl := by
  constructor <;> simp [countOk, countFail, List.filter_cons, isOkB, hU]

theorem counts_cons_error (upload : Nat → Except IPFSErr IPFSUploadResponse)
    (i : Nat) (tl : List Nat) (e : IPFSErr) (hU : upload i = .error e) :
    countOk upload (i :: tl) = countOk upload tl ∧
    countFail upload (i :: tl) = countFail upload tl + 1 := by
  constructor <;> simp [countOk, countFail, List.filter_cons, isOkB, hU]

/-- Full effect of the completion phase of a window when it is entered with
exactly the window's items in flight: one outcome per item appended in
completion order, counters grown by the window's success/failure counts, one
errors entry per failure, in-flight count back to zero, and every delivered
snapshot self-consistent and within the concurrency bound. -/
theorem completionsRun_spec (upload : Nat → Except IPFSErr IPFSUploadResponse)
    (total C : Nat) :
    ∀ (l : List Nat) (s : BatchState),
    s.inProgress = (l.length : Int) →
    l.length ≤ C →
    s.successful + s.failed + l.length ≤ total →
    s.errors.length = s.failed →
    (completionsRun upload total l s).results = s.results ++ l.map (mkOutcome upload) ∧
    (completionsRun upload total l s).successful = s.successful + countOk upload l ∧
    (completionsRun upload total l s).failed = s.failed + countFail upload l ∧
    (completionsRun upload total l s).errors =
      s.errors ++ (l.filter fun i => !isOkB (upload i)).map (errEntry upload) ∧
    (completionsRun upload total l s).inProgress = 0 ∧
    (completionsRun upload total l s).errors.length =
      (completionsRun upload total l s).failed ∧
    ∃ snew, (completionsRun upload total l s).snapshots = s.snapshots ++ snew ∧
      ∀ t ∈ snew, Qsnap total C t := by
  intro l
  induction l with
  | nil =>
    intro s h1 _ _ h4
    refine ⟨by simp [completionsRun], by simp [completionsRun, countOk],
      by simp [completionsRun, countFail], by simp [completionsRun],
      by simpa [completionsRun] using h1, by simpa [completionsRun] using h4,
      ⟨[], by simp [completionsRun], by simp⟩⟩
  | cons i tl ih =>
    intro s h1 h2 h3 h4
    have hstep : completionsRun upload total (i :: tl) s =
        completionsRun upload total tl (completeItem upload total i s) := rfl
    simp only [List.length_cons] at h1 h2 h3
    cases hU : upload i with
    | ok resp =>
      obtain ⟨f1, f2, f3, f4, f5, f6⟩ := completeItem_ok_fields upload total i s resp hU
      obtain ⟨c1, c2⟩ := counts_cons_ok upload i tl resp hU
      have ih1 : (completeItem upload total i s).inProgress = (tl.length : Int) := by
        rw [f5, h1]
        push_cast
        omega
      have ih2 : tl.length ≤ C := by omega
      have ih3 : (completeItem upload total i s).successful +
          (completeItem upload total i s).failed + tl.length ≤ total := by
        rw [f3, f4]
        omega
      have ih4 : (completeItem upload total i s).errors.length =
          (completeItem upload total i s).failed := by
        rw [f2, f4, h4]
      obtain ⟨g1, g2, g3, g4, g5, g6, snew, g7, g8⟩ :=
        ih (completeItem upload total i s) ih1 ih2 ih3 ih4
      refine ⟨?_, ?_, ?_, ?_, ?_, ?_, ?_⟩
      · rw [hstep, g1, f1]
        simp [mkOutcome, hU, List.append_assoc]
      · rw [hstep, g2, f3, c1]
        omega
      · rw [hstep, g3, f4, c2]
      · rw [hstep, g4, f2]
        simp [List.filter_cons, isOkB, hU]
      · rw [hstep]
        exact g5
      · rw [hstep]
        exact g6
      · refine ⟨{ inProgress := s.inProgress - 1
                  total := total
                  successful := s.successful + 1
                  failed := s.failed
                  errors := s.errors } :: snew, ?_, ?_⟩
        · rw [hstep, g7, f6]
          simp
        · intro t ht
          rcases List.mem_cons.mp ht with h | h
          · subst h
            refine ⟨rfl, ?_, ?_, ?_, ?_⟩
            · show s.successful + 1 + s.failed ≤ total
              omega
            · show (0 : Int) ≤ s.inProgress - 1
              rw [h1]
              push_cast
              omega
            · show s.inProgress - 1 ≤ (C : Int)
              rw [h1]
              push_cast
              omega
            · show s.errors.length = s.failed
              exact h4
          · exact g8 t h
    | error e =>
      obtain ⟨f1, f2, f3, f4, f5, f6⟩ := completeItem_error_fields upload total i s e hU
      obtain ⟨c1, c2⟩ := counts_cons_error upload i tl e hU
      have ih1 : (completeItem upload total i s).inProgress = (tl.length : Int) := by
        rw [f5, h1]
        push_cast
        omega
      have ih2 : tl.length ≤ C := by omega
      have ih3 : (completeItem upload total i s).successful +
          (completeItem upload total i s).failed + tl.length ≤ total := by
        rw [f3, f4]
        omega
      have ih4 : (completeItem upload total i s).errors.length =
          (completeItem upload total i s).failed := by
        rw [f2, f4]
        simp [h4]
      obtain ⟨g1, g2, g3, g4, g5, g6, snew, g7, g8⟩ :=
        ih (completeItem upload total i s) ih1 ih2 ih3 ih4
      refine ⟨?_, ?_, ?_, ?_, ?_, ?_, ?_⟩
      · rw [hstep, g1, f1]
        simp [mkOutcome, hU, List.append_assoc]
      · rw [hstep, g2, f3, c1]
      · rw [hstep, g3, f4, c2]
        omega
      · rw [hstep, g4, f2]
        simp [List.filter_cons, isOkB, hU, errEntry, List.append_assoc]
      · rw [hstep]
        exact g5
      · rw [hstep]
        exact g6
      · refine ⟨{ inProgress := s.inProgress - 1
                  total := total
                  successful := s.successful
                  failed := s.failed + 1
                  errors := s.errors ++ ["Index " ++ toString i ++ ": " ++ e.message] }
            :: snew, ?_, ?_⟩
        · rw [hstep, g7, f6]
          simp
        · intro t ht
          rcases List.mem_cons.mp ht with h | h
          · subst h
            refine ⟨rfl, ?_, ?_, ?_, ?_⟩
            · show s.successful + (s.failed + 1) ≤ total
              omega
            · show (0 : Int) ≤ s.inProgress - 1
              rw [h1]
              push_cast
              omega
            · show s.inProgress - 1 ≤ (C : Int)
              rw [h1]
              push_cast
              omega
            · show (s.errors ++ ["Index " ++ toString i ++ ": " ++ e.message]).length =
                s.failed + 1
              simp [h4]
          · exact g8 t h

/-- Full effect of one window iteration from a quiescent state: all outcomes
of the window are appended in completion order, the counters absorb the
window, no upload is left in flight, and every snapshot delivered during the
window is self-consistent and within the concurrency bound. -/
theorem processWindow_spec (upload : Nat → Except IPFSErr IPFSUploadResponse)
    (total C : Nat) (w order : List Nat) (s : BatchState)
    (hperm : order.Perm w) (hlen : w.length ≤ C) (hip : s.inProgress = 0)
    (hcnt : s.successful + s.failed + w.length ≤ total)
    (herr : s.errors.length = s.failed) :
    (processWindow upload total w order s).results =
      s.results ++ order.map (mkOutcome upload) ∧
    (processWindow upload total w order s).successful =
      s.successful + countOk upload w ∧
    (processWindow upload total w order s).failed = s.failed + countFail upload w ∧
    (∃ E, (processWindow upload total w order s).errors = s.errors ++ E ∧
      E.Perm ((w.filter fun i => !isOkB (upload i)).map (errEntry upload))) ∧
    (processWindow upload total w order s).inProgress = 0 ∧
    (processWindow upload total w order s).errors.length =
      (processWindow upload total w order s).failed ∧
    ∃ snew, (processWindow upload total w order s).snapshots = s.snapshots ++ snew ∧
      ∀ t ∈ snew, Qsnap total C t := by
  obtain ⟨a1, a2, a3, a4, a5, snew1, a6, a7⟩ := startsRun_spec total w s
  have hlen' : order.length = w.length := hperm.length_eq
  have h1 : (startsRun total w s).inProgress = (order.length : Int) := by
    rw [a5, hip, hlen']
    simp
  have h2 : order.length ≤ C := by rw [hlen']; exact hlen
  have h3 : (startsRun total w s).successful + (startsRun total w s).failed +
      order.length ≤ total := by
    rw [a3, a4, hlen']
    exact hcnt
  have h4 : (startsRun total w s).errors.length = (startsRun total w s).failed := by
    rw [a2, a4]
    exact herr
  obtain ⟨b1, b2, b3, b4, b5, b6, snew2, b7, b8⟩ :=
    completionsRun_spec upload total C order (startsRun total w s) h1 h2 h3 h4
  have hco : countOk upload order = countOk upload w := by
    simp only [countOk]
    exact (hperm.filter _).length_eq
  have hcf : countFail upload order = countFail upload w := by
    simp only [countFail]
    exact (hperm.filter _).length_eq
  refine ⟨?_, ?_, ?_, ?_, ?_, ?_, ?_⟩
  · show (completionsRun upload total order (startsRun total w s)).results = _
    rw [b1, a1]
  · show (completionsRun upload total order (startsRun total w s)).successful = _
    rw [b2, a3, hco]
  · show (completionsRun upload total order (startsRun total w s)).failed = _
    rw [b3, a4, hcf]
  · refine ⟨(order.filter fun i => !isOkB (upload i)).map (errEntry upload), ?_, ?_⟩
    · show (completionsRun upload total order (startsRun total w s)).errors = _
      rw [b4, a2]
    · exact (hperm.filter _).map _
  · exact b5
  · exact b6
  · refine ⟨snew1 ++ snew2, ?_, ?_⟩
    · show (completionsRun upload total order (startsRun total w s)).snapshots = _
      rw [b7, a6, List.append_assoc]
    · intro t ht
      rcases List.mem_append.mp ht with h | h
      · obtain ⟨q1, q2, q3, q4, q5, q6⟩ := a7 t h
        refine ⟨q1, ?_, ?_, ?_, ?_⟩
        · rw [q2, q3]
          omega
        · rw [hip] at q5
          omega
        · rw [hip] at q6
          have hcast : (w.length : Int) ≤ (C : Int) := by exact_mod_cast hlen
          omega
        · rw [q4, q3]
          exact herr
      · exact b8 t h

/-- Full effect of the window loop on the windows `ws` (processed strictly in
order starting at window number `k0`), from a quiescent state, under any
per-window completion interleaving. -/
theorem runWindows_spec (upload : Nat → Except IPFSErr IPFSUploadResponse)
    (total C : Nat) (sched : Nat → List Nat) :
    ∀ (ws : List (List Nat)) (k0 : Nat) (s : BatchState),
    (∀ w ∈ ws, w.length ≤ C) →
    (∀ j, (sched (k0 + j)).Perm (ws.getD j [])) →
    s.inProgress = 0 →
    s.successful + s.failed + ws.flatten.length ≤ total →
    s.errors.length = s.failed →
    ∃ R E snew,
      (runWindows upload total sched ws k0 s).results = s.results ++ R ∧
      R.Perm (ws.flatten.map (mkOutcome upload)) ∧
      (runWindows upload total sched ws k0 s).successful =
        s.successful + countOk upload ws.flatten ∧
      (runWindows upload total sched ws k0 s).failed =
        s.failed + countFail upload ws.flatten ∧
      (runWindows upload total sched ws k0 s).errors = s.errors ++ E ∧
      E.Perm ((ws.flatten.filter fun i => !isOkB (upload i)).map (errEntry upload)) ∧
      (runWindows upload total sched ws k0 s).inProgress = 0 ∧
      (runWindows upload total sched ws k0 s).errors.length =
        (runWindows upload total sched ws k0 s).failed ∧
      (runWindows upload total sched ws k0 s).snapshots = s.snapshots ++ snew ∧
      (∀ t ∈ snew, Qsnap total C t) := by
  intro ws
  induction ws with
  | nil =>
    intro k0 s _ _ hip _ herr
    exact ⟨[], [], [], by simp [runWindows], by simp, by simp [runWindows, countOk],
      by simp [runWindows, countFail], by simp [runWindows], by simp,
      by simpa [runWindows] using hip, by simpa [runWindows] using herr,
      by simp [runWindows], by simp⟩
  | cons w rest ih =>
    intro k0 s hw hsched hip hcnt herr
    have hw0 : w.length ≤ C := hw w (List.mem_cons_self w rest)
    have hperm0 : (sched k0).Perm w := by
      have h := hsched 0
      simpa using h
    simp only [List.flatten_cons, List.length_append] at hcnt
    have hcnt0 : s.successful + s.failed + w.length ≤ total := by omega
    obtain ⟨p1, p2, p3, ⟨E1, pE1, pE2⟩, p5, p6, snew1, p7, p8⟩ :=
      processWindow_spec upload total C w (sched k0) s hperm0 hw0 hip hcnt0 herr
    have hstep : runWindows upload total sched (w :: rest) k0 s =
        runWindows upload total sched rest (k0 + 1)
          (processWindow upload total w (sched k0) s) := rfl
    have hsched' : ∀ j, (sched (k0 + 1 + j)).Perm (rest.getD j []) := by
      intro j
      have h := hsched (j + 1)
      rw [show k0 + (j + 1) = k0 + 1 + j by omega] at h
      simpa using h
    have hcnt' : (processWindow upload total w (sched k0) s).successful +
        (processWindow upload total w (sched k0) s).failed +
        rest.flatten.length ≤ total := by
      rw [p2, p3]
      have := countOk_add_countFail upload w
      omega
    obtain ⟨R2, E2, snew2, q1, q2, q3, q4, q5, q6, q7, q8, q9, q10⟩ :=
      ih (k0 + 1) (processWindow upload total w (sched k0) s)
        (fun w' hw' => hw w' (List.mem_cons_of_mem w hw')) hsched' p5 hcnt' p6
    refine ⟨(sched k0).map (mkOutcome upload) ++ R2, E1 ++ E2, snew1 ++ snew2,
      ?_, ?_, ?_, ?_, ?_, ?_, ?_, ?_, ?_, ?_⟩
    · rw [hstep, q1, p1, List.append_assoc]
    · rw [List.flatten_cons, List.map_append]
      exact (hperm0.map _).append q2
    · rw [hstep, q3, p2, List.flatten_cons, countOk_append]
      omega
    · rw [hstep, q4, p3, List.flatten_cons, countFail_append]
      omega
    · rw [hstep, q5, pE1, List.append_assoc]
    · rw [List.flatten_cons, List.filter_append, List.map_append]
      exact pE2.append q6
    · rw [hstep]
      exact q7
    · rw [hstep]
      exact q8
    · rw [hstep, q9, p7, List.append_assoc]
    · intro t ht
      rcases List.mem_append.mp ht with h | h
      · exact p8 t h
      · exact q10 t h

theorem windowsAux_nil (fuel C : Nat) : windowsAux fuel C [] = [] := by
  cases fuel <;> rfl

theorem windowsAux_mem_length_le (C : Nat) :
    ∀ (fuel : Nat) (l : List Nat), ∀ w ∈ windowsAux fuel C l, w.length ≤ C := by
  intro fuel
  induction fuel with
  | zero =>
    intro l w hw
    simp [windowsAux] at hw
  | succ fuel ih =>
    intro l w hw
    cases l with
    | nil => simp [windowsAux] at hw
    | cons x xs =>
      simp only [windowsAux] at hw
      rcases List.mem_cons.mp hw with h | h
      · subst h
        rw [List.length_take]
        exact min_le_left _ _
      · exact ih _ w h

theorem windowsAux_flatten (C : Nat) (hC : 1 ≤ C) :
    ∀ (fuel : Nat) (l : List Nat), l.length ≤ fuel →
    (windowsAux fuel C l).flatten = l := by
  intro fuel
  induction fuel with
  | zero =>
    intro l h
    have hl : l = [] := List.eq_nil_of_length_eq_zero (Nat.le_zero.mp h)
    subst hl
    simp [windowsAux]
  | succ fuel ih =>
    intro l h
    cases l with
    | nil => simp [windowsAux]
    | cons x xs =>
      simp only [windowsAux, List.flatten_cons]
      rw [ih ((x :: xs).drop C) ?_, List.take_append_drop]
      rw [List.length_drop]
      simp only [List.length_cons] at h ⊢
      omega

theorem windowsAux_single (C : Nat) : ∀ (fuel : Nat) (l : List Nat),
    l ≠ [] → 1 ≤ fuel → l.length ≤ C → windowsAux fuel C l = [l] := by
  intro fuel l hne hf hlen
  cases fuel with
  | zero => omega
  | succ fuel =>
    cases l with
    | nil => exact absurd rfl hne
    | cons x xs =>
      simp only [windowsAux]
      rw [List.take_of_length_le hlen, List.drop_eq_nil_of_le hlen, windowsAux_nil]

theorem windowsOf_length_le (C n : Nat) : ∀ w ∈ windowsOf C n, w.length ≤ C :=
  windowsAux_mem_length_le C n (List.range n)

theorem windowsOf_flatten (C n : Nat) (hC : 1 ≤ C) :
    (windowsOf C n).flatten = List.range n :=
  windowsAux_flatten C hC n (List.range n) (by simp)

theorem windowsOf_single (C n : Nat) (hn : 1 ≤ n) (hnC : n ≤ C) :
    windowsOf C n = [List.range n] :=
  windowsAux_single C n (List.range n)
    (by simp [List.range_eq_nil]; omega) hn (by simpa using hnC)

/-- Final-state characterization of one whole `uploadBatch` run with
concurrency `C ≥ 1`, for every completion interleaving (`sched k` a
permutation of window `k`). -/
theorem uploadBatchState_spec (upload : Nat → Except IPFSErr IPFSUploadResponse)
    (n C : Nat) (sched : Nat → List Nat) (hC : 1 ≤ C)
    (hsched : ∀ k, (sched k).Perm ((windowsOf C n).getD k [])) :
    (uploadBatchState upload n C sched).results.Perm
      ((List.range n).map (mkOutcome upload)) ∧
    (uploadBatchState upload n C sched).successful = countOk upload (List.range n) ∧
    (uploadBatchState upload n C sched).failed = countFail upload (List.range n) ∧
    (uploadBatchState upload n C sched).errors.Perm
      (((List.range n).filter fun i => !isOkB (upload i)).map (errEntry upload)) ∧
    (uploadBatchState upload n C sched).inProgress = 0 ∧
    (uploadBatchState upload n C sched).errors.length =
      (uploadBatchState upload n C sched).failed ∧
    ∀ t ∈ (uploadBatchState upload n C sched).snapshots, Qsnap n C t := by
  obtain ⟨R, E, snew, e1, e2, e3, e4, e5, e6, e7, e8, e9, e10⟩ :=
    runWindows_spec upload n C sched (windowsOf C n) 0 initState
      (windowsOf_length_le C n) (fun j => by simpa using hsched j) rfl
      (by rw [windowsOf_flatten C n hC]; simp [initState]) rfl
  rw [windowsOf_flatten C n hC] at e2 e3 e4 e6
  have hres : (uploadBatchState upload n C sched).results = R := by
    rw [show uploadBatchState upload n C sched =
      runWindows upload n sched (windowsOf C n) 0 initState from rfl, e1]
    simp [initState]
  have herr : (uploadBatchState upload n C sched).errors = E := by
    rw [show uploadBatchState upload n C sched =
      runWindows upload n sched (windowsOf C n) 0 initState from rfl, e5]
    simp [initState]
  have hsnap : (uploadBatchState upload n C sched).snapshots = snew := by
    rw [show uploadBatchState upload n C sched =
      runWindows upload n sched (windowsOf C n) 0 initState from rfl, e9]
    simp [initState]
  refine ⟨by rw [hres]; exact e2, ?_, ?_, by rw [herr]; exact e6, e7, e8, ?_⟩
  · rw [show uploadBatchState upload n C sched =
      runWindows upload n sched (windowsOf C n) 0 initState from rfl, e3]
    simp [initState]
  · rw [show uploadBatchState upload n C sched =
      runWindows upload n sched (windowsOf C n) 0 initState from rfl, e4]
    simp [initState]
  · rw [hsnap]
    exact e10

theorem sortResults_perm (l : List BatchUploadResult) : (sortResults l).Perm l :=
  List.perm_insertionSort resultLE l

theorem sortResults_sorted (l : List BatchUploadResult) :
    List.Sorted resultLE (sortResults l) :=
  List.sorted_insertionSort resultLE l

theorem map_index_recover (upload : Nat → Except IPFSErr IPFSUploadResponse) :
    ∀ l : List BatchUploadResult,
    (∀ r ∈ l, r = mkOutcome upload r.index) →
    l = (l.map BatchUploadResult.index).map (mkOutcome upload) := by
  intro l
  induction l with
  | nil => intro _; rfl
  | cons a tl ih =>
    intro h
    simp only [List.map_cons]
    rw [← h a (List.mem_cons_self a tl),
      ← ih (fun r hr => h r (List.mem_cons_of_mem a hr))]

/-- The sorted `results` array returned by `uploadBatch` is exactly one
outcome per input index, in ascending index order. -/
theorem uploadBatch_results_eq (upload : Nat → Except IPFSErr IPFSUploadResponse)
    (n C : Nat) (sched : Nat → List Nat) (hC : 1 ≤ C)
    (hsched : ∀ k, (sched k).Perm ((windowsOf C n).getD k [])) :
    (uploadBatch upload n C sched).results = (List.range n).map (mkOutcome upload) := by
  obtain ⟨hres, _, _, _, _, _, _⟩ := uploadBatchState_spec upload n C sched hC hsched
  have hLperm : (sortResults (uploadBatchState upload n C sched).results).Perm
      ((List.range n).map (mkOutcome upload)) :=
    (sortResults_perm _).trans hres
  have hidx_sorted : List.Sorted (· ≤ ·)
      ((sortResults (uploadBatchState upload n C sched).results).map
        BatchUploadResult.index) :=
    List.Pairwise.map BatchUploadResult.index (fun _ _ h => h) (sortResults_sorted _)
  have hcomp : (List.range n).map
      (fun i => (mkOutcome upload i).index) = List.range n := by
    simp [mkOutcome_index]
  have hidx_perm : ((sortResults (uploadBatchState upload n C sched).results).map
      BatchUploadResult.index).Perm (List.range n) := by
    have h := hLperm.map BatchUploadResult.index
    rw [List.map_map] at h
    have h2 : (List.range n).map
        (BatchUploadResult.index ∘ mkOutcome upload) = List.range n := by
      simpa [Function.comp] using hcomp
    rw [h2] at h
    exact h
  have hidx : (sortResults (uploadBatchState upload n C sched).results).map
      BatchUploadResult.index = List.range n :=
    List.eq_of_perm_of_sorted hidx_perm hidx_sorted (List.sorted_le_range n)
  have hmem : ∀ r ∈ sortResults (uploadBatchState upload n C sched).results,
      r = mkOutcome upload r.index := by
    intro r hr
    have hr2 : r ∈ (List.range n).map (mkOutcome upload) := hLperm.mem_iff.mp hr
    obtain ⟨i, _, rfl⟩ := List.mem_map.mp hr2
    rw [mkOutcome_index]
  have : sortResults (uploadBatchState upload n C sched).results =
      ((sortResults (uploadBatchState upload n C sched).results).map
        BatchUploadResult.index).map (mkOutcome upload) :=
    map_index_recover upload _ hmem
  rw [hidx] at this
  exact this

/-- C1: for every input list of length `n` and any completion interleaving,
`uploadBatch` returns a results list of length `n`, sorted strictly ascending
by original index, with `results[i].index = i` for every `i < n`, and each
index `0..n-1` appearing exactly once. -/
theorem c1_order_preservation (upload : Nat → Except IPFSErr IPFSUploadResponse)
    (n C : Nat) (sched : Nat → List Nat) (hC : 1 ≤ C)
    (hsched : ∀ k, (sched k).Perm ((windowsOf C n).getD k [])) :
    (uploadBatch upload n C sched).results.map BatchUploadResult.index =
      List.range n ∧
    (uploadBatch upload n C sched).results.length = n ∧
    (∀ i, i < n →
      ((uploadBatch upload n C sched).results.getD i (.fail 0 "")).index = i) ∧
    List.Pairwise (· < ·)
      ((uploadBatch upload n C sched).results.map BatchUploadResult.index) ∧
    (∀ i, i < n →
      ((uploadBatch upload n C sched).results.map BatchUploadResult.index).count i
        = 1) := by
  have hres := uploadBatch_results_eq upload n C sched hC hsched
  have hmap : (uploadBatch upload n C sched).results.map BatchUploadResult.index =
      List.range n := by
    rw [hres, List.map_map]
    simp [Function.comp_def, mkOutcome_index]
  refine ⟨hmap, ?_, ?_, ?_, ?_⟩
  · have h := congrArg List.length hmap
    simpa using h
  · intro i hi
    have hlen : i < ((List.range n).map (mkOutcome upload)).length := by simpa using hi
    rw [hres, List.getD_eq_getElem _ _ hlen, List.getElem_map,
      List.getElem_range, mkOutcome_index]
  · rw [hmap]
    exact List.pairwise_lt_range n
  · intro i hi
    rw [hmap]
    exact List.count_eq_one_of_mem (List.nodup_range n) (List.mem_range.mpr hi)

/-- Witness for C1 at concrete inputs: three items, concurrency two, each
window completing in reverse order. -/
theorem c1_order_preservation_witness :
    (1 : Nat) ≤ 2 ∧
    (∀ k, (schedRev 2 3 k).Perm ((windowsOf 2 3).getD k [])) ∧
    (uploadBatch uploadEx 3 2 (schedRev 2 3)).results.map BatchUploadResult.index =
      List.range 3 :=
  ⟨by decide, fun k => List.reverse_perm _,
    (c1_order_preservation uploadEx 3 2 (schedRev 2 3) (by decide)
      (fun k => List.reverse_perm _)).1⟩

/-- C4 counterexample: with concurrency `C = 5` and the empty input `n = 0`,
`C > n` holds but the loop body never runs, so there is no window at all —
not the single window the claim asserts. -/
theorem c4_single_window_counterexample :
    5 > 0 ∧ windowsOf 5 0 = [] ∧ (windowsOf 5 0).length ≠ 1 := by
  refine ⟨by decide, by decide, by decide⟩

/-- C4 amended: the input is partitioned into consecutive windows of at most
`C` items (`C ≥ n ≥ 1` gives a single window; `n = 0` gives no window);
window `k + 1` starts only after every item of window `k` has resolved (the
loop is strictly sequential, and a fully completed window returns
`inProgress` to its pre-window value); and no delivered snapshot ever shows
more than `C` uploads in flight. -/
theorem c4_windowed_concurrency_amended
    (upload : Nat → Except IPFSErr IPFSUploadResponse)
    (n C : Nat) (sched : Nat → List Nat) (hC : 1 ≤ C)
    (hsched : ∀ k, (sched k).Perm ((windowsOf C n).getD k [])) :
    (∀ w ∈ windowsOf C n, w.length ≤ C) ∧
    (windowsOf C n).flatten = List.range n ∧
    (1 ≤ n → n ≤ C → windowsOf C n = [List.range n]) ∧
    (∀ t ∈ batchSnapshots upload n C sched, t.inProgress ≤ (C : Int)) ∧
    (∀ (w : List Nat) (rest : List (List Nat)) (k : Nat) (s : BatchState),
      runWindows upload n sched (w :: rest) k s =
        runWindows upload n sched rest (k + 1)
          (processWindow upload n w (sched k) s)) ∧
    (∀ (w order : List Nat) (s : BatchState), order.Perm w →
      (processWindow upload n w order s).inProgress = s.inProgress) := by
  obtain ⟨_, _, _, _, _, _, hQ⟩ := uploadBatchState_spec upload n C sched hC hsched
  refine ⟨windowsOf_length_le C n, windowsOf_flatten C n hC,
    fun hn hnC => windowsOf_single C n hn hnC, ?_, fun _ _ _ _ => rfl, ?_⟩
  · intro t ht
    exact (hQ t ht).2.2.2.1
  · intro w order s hperm
    show (completionsRun upload n order (startsRun n w s)).inProgress = s.inProgress
    rw [completionsRun_inProgress, (startsRun_spec n w s).2.2.2.2.1,
      hperm.length_eq]
    omega

/-- Witness for the amended C4 at concrete inputs. -/
theorem c4_windowed_concurrency_amended_witness :
    (∀ t ∈ batchSnapshots uploadEx 3 2 (schedRev 2 3), t.inProgress ≤ (2 : Int)) ∧
    windowsOf 5 3 = [List.range 3] :=
  ⟨(c4_windowed_concurrency_amended uploadEx 3 2 (schedRev 2 3) (by decide)
      (fun k => List.reverse_perm _)).2.2.2.1,
    (c4_windowed_concurrency_amended uploadEx 3 5 (schedRev 5 3) (by decide)
      (fun k => List.reverse_perm _)).2.2.1 (by decide) (by decide)⟩

/-- C5: at batch completion `successful + failed = total`, the `success` flag
is `true` exactly when nothing failed, the final snapshot has
`inProgress = 0`, and the empty input returns immediately (no snapshot ever
delivered) with total `0`, `success = true` and empty results. -/
theorem c5_conservation (upload : Nat → Except IPFSErr IPFSUploadResponse)
    (n C : Nat) (sched : Nat → List Nat) (hC : 1 ≤ C)
    (hsched : ∀ k, (sched k).Perm ((windowsOf C n).getD k [])) :
    (uploadBatch upload n C sched).progress.successful +
      (uploadBatch upload n C sched).progress.failed = n ∧
    ((uploadBatch upload n C sched).success = true ↔
      (uploadBatch upload n C sched).progress.failed = 0) ∧
    (uploadBatch upload n C sched).progress.inProgress = 0 ∧
    (∀ (upl : Nat → Except IPFSErr IPFSUploadResponse) (CC : Nat)
      (sch : Nat → List Nat),
      uploadBatch upl 0 CC sch =
        { results := []
          success := true
          progress := { inProgress := 0
                        total := 0
                        successful := 0
                        failed := 0
                        errors := [] } } ∧
      batchSnapshots upl 0 CC sch = []) := by
  obtain ⟨_, hs, hf, _, _, _, _⟩ := uploadBatchState_spec upload n C sched hC hsched
  have e1 : (uploadBatch upload n C sched).progress.successful =
      (uploadBatchState upload n C sched).successful := rfl
  have e2 : (uploadBatch upload n C sched).progress.failed =
      (uploadBatchState upload n C sched).failed := rfl
  refine ⟨?_, ?_, rfl, ?_⟩
  · rw [e1, e2, hs, hf]
    have h := countOk_add_countFail upload (List.range n)
    simpa using h
  · show ((uploadBatchState upload n C sched).failed == 0) = true ↔
      (uploadBatchState upload n C sched).failed = 0
    simp
  · intro upl CC sch
    exact ⟨rfl, rfl⟩

/-- Witness for C5 at concrete inputs. -/
theorem c5_conservation_witness :
    (uploadBatch uploadEx 3 2 (schedRev 2 3)).progress.successful +
      (uploadBatch uploadEx 3 2 (schedRev 2 3)).progress.failed = 3 :=
  (c5_conservation uploadEx 3 2 (schedRev 2 3) (by decide)
    (fun k => List.reverse_perm _)).1

/-- C6: every snapshot delivered to the callback satisfies
`successful + failed ≤ total` and `inProgress ≥ 0`; a failing item appends
exactly one `"Index {i}: {message}"` entry to the errors list, and the
snapshot delivered right after carries exactly that extended list; and the
final errors list has exactly one entry per failure. -/
theorem c6_progress_invariants (upload : Nat → Except IPFSErr IPFSUploadResponse)
    (n C : Nat) (sched : Nat → List Nat) (hC : 1 ≤ C)
    (hsched : ∀ k, (sched k).Perm ((windowsOf C n).getD k [])) :
    (∀ t ∈ batchSnapshots upload n C sched,
      t.successful + t.failed ≤ n ∧ 0 ≤ t.inProgress ∧
      t.errors.length = t.failed) ∧
    (∀ (s : BatchState) (i : Nat) (e : IPFSErr), upload i = .error e →
      (completeItem upload n i s).errors =
        s.errors ++ ["Index " ++ toString i ++ ": " ++ e.message] ∧
      (completeItem upload n i s).snapshots = s.snapshots ++
        [{ inProgress := s.inProgress - 1
           total := n
           successful := s.successful
           failed := s.failed + 1
           errors := s.errors ++ ["Index " ++ toString i ++ ": " ++ e.message] }]) ∧
    (uploadBatch upload n C sched).progress.errors.length =
      (uploadBatch upload n C sched).progress.failed := by
  obtain ⟨_, _, _, _, _, helen, hQ⟩ := uploadBatchState_spec upload n C sched hC hsched
  refine ⟨?_, ?_, ?_⟩
  · intro t ht
    obtain ⟨_, q2, q3, _, q5⟩ := hQ t ht
    exact ⟨q2, q3, q5⟩
  · intro s i e hU
    obtain ⟨_, f2, _, _, _, f6⟩ := completeItem_error_fields upload n i s e hU
    exact ⟨f2, f6⟩
  · show (uploadBatchState upload n C sched).errors.length =
      (uploadBatchState upload n C sched).failed
    exact helen

/-- Witness for C6 at a concrete input: the final snapshot of the example
batch run satisfies the snapshot invariants. -/
theorem c6_progress_invariants_witness :
    ({ inProgress := 0
       total := 3
       successful := 2
       failed := 1
       errors := ["Index 1: Network request failed"] } : ProgressSnapshot) ∈
      batchSnapshots uploadEx 3 2 (schedRev 2 3) ∧
    (2 + 1 ≤ 3 ∧ (0 : Int) ≤ 0 ∧
      (["Index 1: Network request failed"] : List String).length = 1) :=
  ⟨by decide,
    (c6_progress_invariants uploadEx 3 2 (schedRev 2 3) (by decide)
      (fun k => List.reverse_perm _)).1
      { inProgress := 0
        total := 3
        successful := 2
        failed := 1
        errors := ["Index 1: Network request failed"] } (by decide)⟩

/-- C7: an error from an individual item never escapes `uploadBatch` — the
per-item `catch` converts it into exactly one `Failure` outcome at that
item's index — while the single-item `uploadJSON` does raise on unrecoverable
failure. -/
theorem c7_failure_isolation (upload : Nat → Except IPFSErr IPFSUploadResponse)
    (n C : Nat) (sched : Nat → List Nat) (hC : 1 ≤ C)
    (hsched : ∀ k, (sched k).Perm ((windowsOf C n).getD k [])) :
    (∀ (i : Nat) (e : IPFSErr), i < n → upload i = .error e →
      (uploadBatch upload n C sched).results.getD i (.fail 0 "") =
        .fail i e.message ∧
      ((uploadBatch upload n C sched).results.map BatchUploadResult.index).count i
        = 1) ∧
    (∀ (opts : UploadOptions) (att : Nat → AttemptOutcome) (msg : String),
      att 0 = .err msg → msg ≠ "Upload timeout" → isRetryableError msg = false →
      uploadJSON opts att =
        .error ⟨"IPFS upload failed: " ++ msg, .UPLOAD_FAILED⟩) := by
  have hres := uploadBatch_results_eq upload n C sched hC hsched
  have hmap : (uploadBatch upload n C sched).results.map BatchUploadResult.index =
      List.range n := by
    rw [hres, List.map_map]
    simp [Function.comp_def, mkOutcome_index]
  refine ⟨?_, ?_⟩
  · intro i e hi hU
    constructor
    · have hlen : i < ((List.range n).map (mkOutcome upload)).length := by simpa using hi
      rw [hres, List.getD_eq_getElem _ _ hlen, List.getElem_map, List.getElem_range]
      simp [mkOutcome, hU]
    · rw [hmap]
      exact List.count_eq_one_of_mem (List.nodup_range n) (List.mem_range.mpr hi)
  · intro opts att msg hA hne hnr
    exact (uploadWithRetry_fatal opts att 0 opts.retries msg hA hne hnr).1

/-- Witness for C7 at concrete inputs: item 1 of the example batch fails and
yields exactly one failure outcome at index 1; a non-retryable transport
error makes `uploadJSON` raise. -/
theorem c7_failure_isolation_witness :
    uploadEx 1 = .error ⟨"Network request failed", .UPLOAD_FAILED⟩ ∧
    (1 : Nat) < 3 ∧
    (uploadBatch uploadEx 3 2 (schedRev 2 3)).results.getD 1 (.fail 0 "") =
      .fail 1 "Network request failed" ∧
    attErr 0 = .err "Invalid metadata schema" ∧
    uploadJSON DEFAULT_OPTIONS attErr =
      .error ⟨"IPFS upload failed: Invalid metadata schema", .UPLOAD_FAILED⟩ :=
  ⟨by decide, by decide,
    ((c7_failure_isolation uploadEx 3 2 (schedRev 2 3) (by decide)
      (fun k => List.reverse_perm _)).1 1 ⟨"Network request failed", .UPLOAD_FAILED⟩
      (by decide) (by decide)).1,
    by decide,
    (c7_failure_isolation uploadEx 3 2 (schedRev 2 3) (by decide)
      (fun k => List.reverse_perm _)).2 DEFAULT_OPTIONS attErr
      "Invalid metadata schema" (by decide) (by decide) (by decide)⟩

/-- C10: the window loop advances its index by `C` each iteration, so with
`C ≥ 1` the guard fails within `n` iterations and `uploadBatch` terminates
with a complete `BatchResult` (one result per item, nothing left in flight);
with `C = 0` (the only `C < 1` in this model) the loop index never moves, so
for a non-empty input the loop guard never becomes false. -/
theorem c10_termination (upload : Nat → Except IPFSErr IPFSUploadResponse)
    (n C : Nat) (sched : Nat → List Nat) (hC : 1 ≤ C)
    (hsched : ∀ k, (sched k).Perm ((windowsOf C n).getD k [])) :
    (∀ k, loopCounter C (k + 1) = loopCounter C k + C) ∧
    n ≤ loopCounter C n ∧
    (uploadBatch upload n C sched).results.length = n ∧
    (uploadBatchState upload n C sched).inProgress = 0 ∧
    (∀ m, 0 < m → ∀ k, loopCounter 0 k < m) := by
  have hlc : ∀ k, loopCounter C k = k * C := by
    intro k
    induction k with
    | zero => simp [loopCounter]
    | succ k ih => simp [loopCounter, ih, Nat.succ_mul]
  have h0 : ∀ k, loopCounter 0 k = 0 := by
    intro k
    induction k with
    | zero => rfl
    | succ k ih => simp [loopCounter, ih]
  refine ⟨fun k => rfl, ?_, ?_, ?_, ?_⟩
  · rw [hlc]
    exact Nat.le_mul_of_pos_right n hC
  · rw [uploadBatch_results_eq upload n C sched hC hsched]
    simp
  · exact (uploadBatchState_spec upload n C sched hC hsched).2.2.2.2.1
  · intro m hm k
    rw [h0]
    exact hm

/-- Witness for C10 at concrete inputs. -/
theorem c10_termination_witness :
    (uploadBatch uploadEx 3 2 (schedRev 2 3)).results.length = 3 ∧
    3 ≤ loopCounter 2 3 ∧
    (0 < 1 → ∀ k, loopCounter 0 k < 1) :=
  ⟨(c10_termination uploadEx 3 2 (schedRev 2 3) (by decide)
      (fun k => List.reverse_perm _)).2.2.1,
    (c10_termination uploadEx 3 2 (schedRev 2 3) (by decide)
      (fun k => List.reverse_perm _)).2.1,
    fun hm => (c10_termination uploadEx 3 2 (schedRev 2 3) (by decide)
      (fun k => List.reverse_perm _)).2.2.2.2 1 hm⟩

theorem runOps_created_aux : ∀ (ops : List ClientOp) (s : ClientState),
    (ops.foldl applyOp s).created ≤
      s.created + ops.count ClientOp.disconnect +
        (if s.client.isSome then 0 else 1) := by
  intro ops
  induction ops with
  | nil =>
    intro s
    simp only [List.foldl_nil, List.count_nil]
    split <;> omega
  | cons op tl ih =>
    intro s
    cases op with
    | upload =>
      have hstep : ((ClientOp.upload :: tl).foldl applyOp s) =
          tl.foldl applyOp (applyOp s .upload) := rfl
      have hcount : (ClientOp.upload :: tl).count ClientOp.disconnect =
          tl.count ClientOp.disconnect := by
        simp [List.count_cons]
      rw [hstep, hcount]
      cases hc : s.client with
      | some h =>
        have happ : applyOp s .upload = s := by
          simp [applyOp, getClient, hc]
        rw [happ]
        have h2 := ih s
        simp [hc] at h2 ⊢
        omega
      | none =>
        have happ : applyOp s .upload =
            { client := some s.created, created := s.created + 1 } := by
          simp [applyOp, getClient, hc]
        rw [happ]
        have h2 := ih { client := some s.created, created := s.created + 1 }
        simp at h2
        simp [hc]
        omega
    | disconnect =>
      have hstep : ((ClientOp.disconnect :: tl).foldl applyOp s) =
          tl.foldl applyOp (applyOp s .disconnect) := rfl
      have hcount : (ClientOp.disconnect :: tl).count ClientOp.disconnect =
          tl.count ClientOp.disconnect + 1 := by
        simp [List.count_cons]
      have happ : applyOp s .disconnect = { s with client := none } := rfl
      rw [hstep, hcount, happ]
      have h2 := ih { s with client := none }
      simp at h2
      split <;> omega

/-- C9 counterexample: on the operation sequence
upload, disconnect, upload the transport handle is created twice —
`disconnect()` nulls the handle and the next upload re-creates it — so
"created at most once per client instance" fails once disconnects are
allowed in the sequence. -/
theorem c9_lazy_client_counterexample :
    (runOps [ClientOp.upload, ClientOp.disconnect, ClientOp.upload]).created = 2 ∧
    ¬ (runOps [ClientOp.upload, ClientOp.disconnect, ClientOp.upload]).created ≤ 1 := by
  refine ⟨by decide, by decide⟩

/-- C9 amended: across every operation sequence, the handle is created at most
once more than the number of disconnects — in particular at most once when no
disconnect occurs — and an existing handle is always reused: `getClient` on a
state holding a handle returns that handle unchanged, and two consecutive
`getClient` calls return the same handle. -/
theorem c9_lazy_client_amended (ops : List ClientOp) :
    (runOps ops).created ≤ ops.count ClientOp.disconnect + 1 ∧
    (ops.count ClientOp.disconnect = 0 → (runOps ops).created ≤ 1) ∧
    (∀ (s : ClientState) (h : Nat), s.client = some h → getClient s = (h, s)) ∧
    (∀ s : ClientState, (getClient (getClient s).2).1 = (getClient s).1) := by
  have haux := runOps_created_aux ops { client := none, created := 0 }
  simp at haux
  have hbound : (runOps ops).created ≤ ops.count ClientOp.disconnect + 1 := by
    show (ops.foldl applyOp { client := none, created := 0 }).created ≤ _
    omega
  refine ⟨hbound, ?_, ?_, ?_⟩
  · intro h0
    rw [h0] at hbound
    omega
  · intro s h hs
    simp [getClient, hs]
  · intro s
    cases hc : s.client with
    | some h => simp [getClient, hc]
    | none => simp [getClient, hc]

/-- Witness for the amended C9 at concrete inputs. -/
theorem c9_lazy_client_amended_witness :
    ([ClientOp.upload, ClientOp.upload].count ClientOp.disconnect = 0) ∧
    (runOps [ClientOp.upload, ClientOp.upload]).created ≤ 1 ∧
    ({ client := some 7, created := 1 } : ClientState).client = some 7 ∧
    getClient { client := some 7, created := 1 } =
      (7, { client := some 7, created := 1 }) :=
  ⟨by decide,
    (c9_lazy_client_amended [ClientOp.upload, ClientOp.upload]).2.1 (by decide),
    by decide,
    (c9_lazy_client_amended []).2.2.1 { client := some 7, created := 1 } 7 rfl⟩

end IpfsSdk
